import Mathlib

/-!
Verification of the record-extraction engine of `src/app.py` (Texas Ethics
PDF extractor).  The Python source is shallowly embedded: each regular
expression the source uses is hand-compiled into an executable backtracking
matcher with Python `re` semantics (leftmost match, greedy/lazy alternation
order, `.` not matching a newline), and the scanning loop, field resolver,
deduplicator and aggregator are translated function by function.  Character
classes (`\d`, `\s`, `[A-Z]`, `str.lower`) are modelled over ASCII, which is
the alphabet the source's fixed phrases and patterns draw from.
-/

namespace App

/-- Python `\s` character class over ASCII: space, `\t`, `\n`, `\r`, `\v`, `\f`. -/
def isSpaceC (c : Char) : Bool :=
  c = ' ' || c = '\t' || c = '\n' || c = '\r' || c.toNat = 11 || c.toNat = 12

/-- `[\d,]` character class of the amount token. -/
def amtChar (c : Char) : Bool := c.isDigit || c = ','

/-- Substring containment, Python's `pat in text` for lists of characters. -/
def containsSub (pat : List Char) : List Char → Bool
  | [] => pat.isPrefixOf []
  | c :: t => pat.isPrefixOf (c :: t) || containsSub pat t

/-- Python `text.strip()`: drop leading and trailing whitespace. -/
def pyStrip (cs : List Char) : List Char :=
  ((cs.dropWhile isSpaceC).reverse.dropWhile isSpaceC).reverse

/-- Python `text.lower()` over ASCII. -/
def toLowerL (cs : List Char) : List Char := cs.map Char.toLower

/-- Matches `\d{2}/\d{2}/\d{4}` at the head of the input, returning the date
token and the rest. -/
def matchDate : List Char → Option (List Char × List Char)
  | d1 :: d2 :: '/' :: d3 :: d4 :: '/' :: y1 :: y2 :: y3 :: y4 :: rest =>
    if d1.isDigit && d2.isDigit && d3.isDigit && d4.isDigit &&
       y1.isDigit && y2.isDigit && y3.isDigit && y4.isDigit
    then some ([d1, d2, '/', d3, d4, '/', y1, y2, y3, y4], rest)
    else none
  | _ => none

/-- Matches `[\d,]+\.\d{2}` at the head of the input, returning the matched
text.  The greedy `[\d,]+` can only succeed at its maximal munch, because a
shorter munch leaves a `[\d,]` character where `\.` is required. -/
def matchAmount (cs : List Char) : Option (List Char) :=
  match cs.drop (cs.takeWhile amtChar).length with
  | '.' :: a :: b :: _ =>
    if !(cs.takeWhile amtChar).isEmpty && a.isDigit && b.isDigit then
      some (cs.takeWhile amtChar ++ ['.', a, b])
    else none
  | _ => none

/-- Matches `\s+\$([\d,]+\.\d{2})` at the head of the input, returning the
amount group.  The greedy `\s+` can only succeed at its maximal munch: any
character it gives back is whitespace, never the required `$`. -/
def tryAfterName (cs : List Char) : Option (List Char) :=
  if (cs.takeWhile isSpaceC).length = 0 then none
  else
    match cs.drop (cs.takeWhile isSpaceC).length with
    | '$' :: rest => matchAmount rest
    | _ => none

/-- The lazy group `(.+?)` followed by `\s+\$([\d,]+\.\d{2})`: the name group
grows one character at a time (never across a newline, which `.` cannot
match), trying the rest of the pattern after each extension. -/
def lazyName (acc : List Char) : List Char → Option (List Char × List Char)
  | [] => none
  | c :: t =>
    if c = '\n' then none
    else
      match tryAfterName t with
      | some g3 => some (acc ++ [c], g3)
      | none => lazyName (acc ++ [c]) t

/-- The list `[n, n-1, ..., 1]`: the order in which a greedy `\s+` hands back
characters. -/
def descRange (n : Nat) : List Nat := (List.range n).map (fun j => n - j)

/-- Matches `\s+(.+?)\s+\$([\d,]+\.\d{2})` at the head of the input, returning
the name and amount groups, in Python backtracking order: the leading greedy
`\s+` tries its longest munch first, and for each munch the lazy `(.+?)`
grows from one character up. -/
def matchTail (cs : List Char) : Option (List Char × List Char) :=
  (descRange (cs.takeWhile isSpaceC).length).findSome? fun k => lazyName [] (cs.drop k)

/-- Full anchor pattern `(\d{2}/\d{2}/\d{4})\s+(.+?)\s+\$([\d,]+\.\d{2})`
anchored at the head of the input (`src/app.py` line 149). -/
def matchAnchorAt (cs : List Char) : Option (List Char × List Char × List Char) :=
  match matchDate cs with
  | none => none
  | some (g1, rest) =>
    match matchTail rest with
    | none => none
    | some (g2, g3) => some (g1, g2, g3)

/-- Search (Python `re.search`) of the anchor pattern: try every start
position left to right. -/
def searchAnchor (cs : List Char) : Option (List Char × List Char × List Char) :=
  match matchAnchorAt cs with
  | some g => some g
  | none =>
    match cs with
    | [] => none
    | _ :: t => searchAnchor t

/-- Is there a position `j` such that the characters before it (within this
suffix) are all non-newline and position `j` starts `\$[\d,]+\.\d{2}`?
This is the `.*?\$[\d,]+\.\d{2}` part of the resync pattern, as a Boolean. -/
def dollarAmountAhead : List Char → Bool
  | [] => false
  | c :: t => (c = '$' && (matchAmount t).isSome) || (c != '\n' && dollarAmountAhead t)

/-- After a date token: `\s+.*?\$[\d,]+\.\d{2}` as a Boolean.  `\s+` may take
any non-zero number of the available whitespace characters (the lazy `.*?`
can absorb the remainder). -/
def spaceThenDollar (rest : List Char) : Bool :=
  (List.range (rest.takeWhile isSpaceC).length).any fun j =>
    dollarAmountAhead (rest.drop (j + 1))

/-- Boolean for `re.search(r'\d{2}/\d{2}/\d{4}\s+.*?\$[\d,]+\.\d{2}', line)`
(`src/app.py` lines 193 and 262): the next-record (resync) pattern. -/
def nextAnchorLike : List Char → Bool
  | [] => false
  | c :: t =>
    (match matchDate (c :: t) with
     | some (_, rest) => spaceThenDollar rest
     | none => false) || nextAnchorLike t

/-- Boolean for `re.search(r'\d{2}/\d{2}/\d{4}', line)` (`src/app.py` line 207). -/
def hasDateAnywhere : List Char → Bool
  | [] => false
  | c :: t => (matchDate (c :: t)).isSome || hasDateAnywhere t

/-- Boolean for `re.search(r'[A-Z]{2}\s+\d', line)` (`src/app.py` lines 173
and 209): the city/state/ZIP shape.  As with the anchor, the greedy `\s+`
followed by `\d` can only succeed at its maximal whitespace munch. -/
def hasStateZipShape : List Char → Bool
  | [] => false
  | c :: t =>
    (match t with
     | c2 :: t2 =>
       c.isUpper && c2.isUpper &&
       (let m := (t2.takeWhile isSpaceC).length
        decide (0 < m) &&
        (match t2.drop m with
         | d :: _ => d.isDigit
         | [] => false))
     | [] => false) || hasStateZipShape t

/-- Python `$` in a non-multiline pattern: matches at the very end or just
before one trailing newline; modelled by dropping one trailing newline. -/
def stripEndNl (cs : List Char) : List Char :=
  match cs.getLast? with
  | some '\n' => cs.dropLast
  | _ => cs

/-- Boolean for `re.match(r'^\d+\.\d+$', text)` (`src/app.py` line 110). -/
def isPageMarker (cs : List Char) : Bool :=
  let cs := stripEndNl cs
  let a := cs.takeWhile Char.isDigit
  !a.isEmpty &&
    (match cs.drop a.length with
     | '.' :: r => !r.isEmpty && r.all Char.isDigit
     | _ => false)

/-- Boolean for `re.match(r'^Sch:.*Rpt:', text)` (`src/app.py` line 112):
the input starts with `Sch:` and `Rpt:` occurs later with no newline before it. -/
def seekRpt : List Char → Bool
  | [] => false
  | c :: t => "Rpt:".toList.isPrefixOf (c :: t) || (c != '\n' && seekRpt t)

def isSchRpt (cs : List Char) : Bool :=
  "Sch:".toList.isPrefixOf cs && seekRpt (cs.drop 4)

/-- Boolean for `re.match(r'^\d+ of \d+$', text)` (`src/app.py` line 114). -/
def isPageOf (cs : List Char) : Bool :=
  let cs := stripEndNl cs
  let a := cs.takeWhile Char.isDigit
  !a.isEmpty && " of ".toList.isPrefixOf (cs.drop a.length) &&
    (let r := cs.drop (a.length + 4)
     !r.isEmpty && r.all Char.isDigit)

/-! ### Phrase lists and the line classifier (`src/app.py` lines 59-116) -/

/-- Footer phrases that should never be captured as data (`FOOTER_PATTERNS`). -/
def FOOTER_PATTERNS : List String :=
  ["provided by Texas Ethics Commission",
   "www.ethics.state.tx.us",
   "Version V1.1",
   "Forms provided by",
   "Texas Ethics Commission"]

/-- Header phrases that should be skipped (`HEADER_PATTERNS`). -/
def HEADER_PATTERNS : List String :=
  ["Full name of contributor",
   "out-of-state PAC",
   "ID#:_________________________",
   "Amount of Contribution ($)",
   "Date",
   "Contributor address",
   "Principal occupation",
   "Job title",
   "See Instructions",
   "Employer",
   "SCHEDULE",
   "MONETARY POLITICAL CONTRIBUTIONS"]

/-- Case-insensitive footer-phrase containment (`is_footer_text`). -/
def isFooterText (cs : List Char) : Bool :=
  FOOTER_PATTERNS.any fun p => containsSub (toLowerL p.data) (toLowerL cs)

/-- Case-sensitive header-phrase containment (`is_header_text`). -/
def isHeaderText (cs : List Char) : Bool :=
  HEADER_PATTERNS.any fun p => containsSub p.data cs

/-- The shared skip-rule predicate (`should_skip_line`): empty/whitespace-only
lines, footer and header phrases, and the three page-marker shapes. -/
def shouldSkipLine (s : String) : Bool :=
  let cs := s.data
  if pyStrip cs = [] then true
  else isFooterText cs || isHeaderText cs || isPageMarker cs || isSchRpt cs || isPageOf cs

/-! ### Python string helpers used by the field resolver -/

/-- Whitespace-split accumulator for Python `str.split()` with no separator:
runs of whitespace separate tokens and produce no empty strings. -/
def wordsAux : List Char → List Char → List (List Char)
  | [], acc => if acc.isEmpty then [] else [acc.reverse]
  | c :: t, acc =>
    if isSpaceC c then
      if acc.isEmpty then wordsAux t [] else acc.reverse :: wordsAux t []
    else wordsAux t (c :: acc)

/-- Python `s.split()`. -/
def pyWords (cs : List Char) : List (List Char) := wordsAux cs []

/-- Python `s.split(maxsplit=1)`: skip leading whitespace, take the first
token, skip the separating whitespace, and keep the remainder verbatim if it
is non-empty. -/
def pySplitMax1 (cs : List Char) : List (List Char) :=
  let afterLead := cs.dropWhile isSpaceC
  match afterLead.takeWhile (fun c => !isSpaceC c) with
  | [] => []
  | tok =>
    let rest := (afterLead.drop tok.length).dropWhile isSpaceC
    if rest.isEmpty then [tok] else [tok, rest]

/-- Python `s.split(',')`: split at every comma, keeping empty pieces. -/
def splitOnCommaAux : List Char → List Char → List (List Char)
  | [], acc => [acc.reverse]
  | c :: t, acc => if c = ',' then acc.reverse :: splitOnCommaAux t [] else splitOnCommaAux t (c :: acc)

def splitOnComma (cs : List Char) : List (List Char) := splitOnCommaAux cs []

/-- One step of Python `s.replace(pat, '')` for a non-empty pattern
`p :: ps`: remove every left-to-right non-overlapping occurrence.  The fuel
argument (any value at least the input length) keeps the recursion
structural. -/
def replaceAllF (p : Char) (ps : List Char) : Nat → List Char → List Char
  | 0, cs => cs
  | _ + 1, [] => []
  | f + 1, c :: t =>
    if (p :: ps).isPrefixOf (c :: t) then replaceAllF p ps f (t.drop ps.length)
    else c :: replaceAllF p ps f t

/-- Python `s.replace(pat, '')`. -/
def pyReplaceEmpty (pat : List Char) (cs : List Char) : List Char :=
  match pat with
  | [] => cs
  | p :: ps => replaceAllF p ps cs.length cs

/-- Attempt to match `\(ID#:.*?\)` at the head of the input; on success
return the remainder after the closing parenthesis.  The lazy `.*?` stops at
the first `)` and cannot cross a newline. -/
def scanClose : List Char → Option (List Char)
  | [] => none
  | c :: t => if c = ')' then some t else if c = '\n' then none else scanClose t

def matchIdFrag (cs : List Char) : Option (List Char) :=
  if "(ID#:".toList.isPrefixOf cs then scanClose (cs.drop 5) else none

/-- Fueled worker for `re.sub(r'\(ID#:.*?\)', '', name)`: scan left to right,
removing each match and resuming after it (`src/app.py` line 158). -/
def removeIdFragsF : Nat → List Char → List Char
  | 0, cs => cs
  | _ + 1, [] => []
  | f + 1, c :: t =>
    match matchIdFrag (c :: t) with
    | some rest => removeIdFragsF f rest
    | none => c :: removeIdFragsF f t

/-- Python `re.sub(r'\(ID#:.*?\)', '', cs)`. -/
def removeIdFrags (cs : List Char) : List Char := removeIdFragsF cs.length cs

/-- The contributor-name computation of `src/app.py` lines 157-158:
`re.sub(r'\(ID#:.*?\)', '', name_and_maybe_more).strip()`. -/
def contributorNameOf (g2 : List Char) : List Char := pyStrip (removeIdFrags g2)

/-! ### Field resolver (`src/app.py` lines 160-244) -/

/-- Address lookahead (`src/app.py` lines 169-174): the first of the next
three lines (when it exists) that contains a comma and the state/ZIP shape. -/
def findAddressLine (lines : List String) (i : Nat) : Option String :=
  [1, 2, 3].findSome? fun j =>
    if i + j < lines.length then
      let l := lines.getD (i + j) ""
      if l.data.contains ',' && hasStateZipShape l.data then some l else none
    else none

/-- Address parsing (`src/app.py` lines 177-184): split on commas; when at
least two pieces exist the first becomes `city` and the second, once split on
whitespace into at least two tokens, yields `state` and `zip`. -/
def splitAddress (addr : String) : String × String × String :=
  match splitOnComma addr.data with
  | c0 :: c1 :: _ =>
    let city : String := ⟨pyStrip c0⟩
    match pyWords (pyStrip c1) with
    | s :: z :: _ => (city, ⟨s⟩, ⟨z⟩)
    | _ => (city, "No Data", "No Data")
  | _ => ("No Data", "No Data", "No Data")

/-- Next-record detection for the occupation window (`src/app.py` lines
191-196): the first line in `range(i+1, min(i+20, len(lines)))` matching the
resync pattern. -/
def nextContributionIdx (lines : List String) (i : Nat) : Option Nat :=
  (List.range' (i + 1) (min (i + 20) lines.length - (i + 1))).find? fun j =>
    nextAnchorLike (lines.getD j "").data

/-- Upper bound of the occupation/employer search window (`src/app.py` lines
188-196): `min(i+15, len(lines))`, narrowed to a detected next record. -/
def searchEnd (lines : List String) (i : Nat) : Nat :=
  match nextContributionIdx lines i with
  | some j => min (min (i + 15) lines.length) j
  | none => min (i + 15) lines.length

/-- The lines of the search window `range(i+1, search_end)`. -/
def windowLines (lines : List String) (i : Nat) : List String :=
  (List.range' (i + 1) (searchEnd lines i - (i + 1))).map fun j => lines.getD j ""

/-- Candidate collection (`src/app.py` lines 199-212): window lines that are
not skip-lines, not the address line, not date-and-dollar lines, and not
address-shaped lines. -/
def potentialDataLines (lines : List String) (i : Nat) (addr : String) : List String :=
  (windowLines lines i).filter fun l =>
    !shouldSkipLine l && l != addr &&
    !(hasDateAnywhere l.data && l.data.contains '$') &&
    !(l.data.contains ',' && hasStateZipShape l.data)

/-- Occupation/employer assignment (`src/app.py` lines 215-227). -/
def assignOccEmp (cands : List String) : String × String :=
  match cands with
  | [] => ("No Data", "No Data")
  | [d] =>
    if d.data.contains ' ' then
      match pySplitMax1 d.data with
      | [a, b] => (⟨a⟩, ⟨b⟩)
      | _ => ("No Data", "No Data")
    else (d, "No Data")
  | a :: b :: _ => (a, b)

/-- Per-pattern cleanup (`src/app.py` lines 230-234): while the value is
non-empty, remove each header phrase and strip. -/
def cleanupField (s : String) : String :=
  HEADER_PATTERNS.foldl
    (fun acc pat => if acc.data.isEmpty then acc else ⟨pyStrip (pyReplaceEmpty pat.data acc.data)⟩) s

/-- Final sentinel substitution (`src/app.py` lines 236-244). -/
def finalizeField (s : String) : String :=
  let s := if s = "()" ∨ s = "(" ∨ s = ")" then "No Data" else s
  if s.data.isEmpty ∨ (pyStrip s.data).isEmpty then "No Data" else s

/-- The occupation and employer of the record anchored at line `i`. -/
def occEmpOf (lines : List String) (i : Nat) (addr : String) : String × String :=
  let p := assignOccEmp (potentialDataLines lines i addr)
  (finalizeField (cleanupField p.1), finalizeField (cleanupField p.2))

/-! ### Record construction and the scanning loop (`src/app.py` lines 144-268) -/

/-- One extracted contribution row (the dict of `src/app.py` lines 246-257). -/
structure Contribution where
  date : String
  name : String
  address : String
  city : String
  state : String
  zip : String
  occupation : String
  employer : String
  amount : String
  page : Nat
  deriving DecidableEq, Repr

/-- The record built at anchor line `i` from the three anchor groups. -/
def buildRecord (lines : List String) (i page : Nat) (g1 g2 g3 : List Char) : Contribution :=
  let addrLine := findAddressLine lines i
  let addr := addrLine.getD "No Data"
  let csz := match addrLine with
    | some l => splitAddress l
    | none => ("No Data", "No Data", "No Data")
  let oe := occEmpOf lines i addr
  { date := ⟨g1⟩, name := ⟨contributorNameOf g2⟩, address := addr,
    city := csz.1, state := csz.2.1, zip := csz.2.2,
    occupation := oe.1, employer := oe.2,
    amount := ⟨'$' :: g3⟩, page := page }

/-- Resync scan (`src/app.py` lines 260-264): the first line of
`range(i+1, min(i+10, len(lines)))` matching the resync pattern. -/
def skipWindowFind (lines : List String) (i : Nat) : Option Nat :=
  (List.range' (i + 1) (min (i + 10) lines.length - (i + 1))).find? fun j =>
    nextAnchorLike (lines.getD j "").data

/-- Cursor advance after a matched anchor (`src/app.py` lines 260-266):
distance to the detected next anchor, or the fallback constant 5. -/
def skipAmount (lines : List String) (i : Nat) : Nat :=
  match skipWindowFind lines i with
  | some j => j - i
  | none => 5

/-- The cursor position after one iteration of the `while i < len(lines)`
loop body at cursor `i` (`src/app.py` lines 145-268). -/
def nextCursor (lines : List String) (i : Nat) : Nat :=
  if (searchAnchor (lines.getD i "").data).isSome then i + skipAmount lines i
  else i + 1

/-- The scanning loop, with fuel to keep the recursion structural; fuel
`lines.length - i` (or more) reproduces the `while` loop exactly, because the
cursor strictly increases at every iteration. -/
def processFromF : Nat → List String → Nat → Nat → List Contribution
  | 0, _, _, _ => []
  | f + 1, lines, page, i =>
    if i < lines.length then
      (match searchAnchor (lines.getD i "").data with
       | some (g1, g2, g3) => [buildRecord lines i page g1 g2 g3]
       | none => []) ++ processFromF f lines page (nextCursor lines i)
    else []

/-- Page splitting (`src/app.py` line 141): strip each line and drop the
empty ones. -/
def pageLines (text : String) : List String :=
  ((text.splitOn "\n").map fun l => (⟨pyStrip l.data⟩ : String)).filter fun l => !l.data.isEmpty

/-- All records of one page (pages are reported 1-based). -/
def processPage (text : String) (page : Nat) : List Contribution :=
  let lines := pageLines text
  processFromF lines.length lines page 0

/-! ### Deduplicator (`src/app.py` lines 270-277) -/

/-- The composite identity key `(Date, Contributor Name, Amount)`. -/
def dkey (r : Contribution) : String × String × String := (r.date, r.name, r.amount)

/-- The seen-set filter: keep a record only if its key was not seen before. -/
def dedupAux : List (String × String × String) → List Contribution → List Contribution
  | _, [] => []
  | seen, r :: t =>
    if dkey r ∈ seen then dedupAux seen t
    else r :: dedupAux (dkey r :: seen) t

/-- Duplicate removal over the accumulated record list. -/
def dedup (l : List Contribution) : List Contribution := dedupAux [] l

/-! ### Document-level extraction (`src/app.py` lines 118-282) -/

/-- The section marker phrase. -/
def markerPhrase : String := "MONETARY POLITICAL CONTRIBUTIONS"

/-- Page relevance (`src/app.py` line 129): literal, case-sensitive
containment of the marker phrase. -/
def pageRelevant (text : String) : Bool := containsSub markerPhrase.data text.data

/-- The extraction entry point on a successfully opened document, given the
extracted text of each page: the pair `(contributions, error)` returned by
`extract_schedule_a1_from_pdf`. -/
def extractFromPages (pages : List String) : Option (List Contribution) × Option String :=
  let relevant := (List.range pages.length).filter fun n => pageRelevant (pages.getD n "")
  if relevant.isEmpty then
    (none, some "No Schedule A1 data found in the PDF")
  else
    let all := (relevant.map fun n => processPage (pages.getD n "") (n + 1)).flatten
    (some (dedup all), none)

/-- The error result produced by the exception handler for a malformed
document (`src/app.py` lines 281-282). -/
def processingError (e : String) : String := "Error processing PDF: " ++ e

/-! ### Record aggregator (`src/app.py` lines 320-326) -/

/-- Digit-run value (the groups of the `%m/%d/%Y` parse are ASCII digits). -/
def digitsVal (l : List Char) : Nat := l.foldl (fun a c => a * 10 + (c.toNat - 48)) 0

/-- Take exactly `k` characters, all digits, returning their value and the rest. -/
def splitDigits (cs : List Char) (k : Nat) : Option (Nat × List Char) :=
  let pre := cs.take k
  if pre.length == k && pre.all Char.isDigit then some (digitsVal pre, cs.drop k) else none

/-- The regex phase of `strptime(s, '%m/%d/%Y')`: a full match of
`(\d{1,2})/(\d{1,2})/(\d{1,4})` with greedy groups, returning `(m, d, y)`.
Validation happens after the match, never by backtracking into it. -/
def dateGroups (cs : List Char) : Option (Nat × Nat × Nat) :=
  [2, 1].findSome? fun km =>
    match splitDigits cs km with
    | some (m, '/' :: r1) =>
      [2, 1].findSome? fun kd =>
        match splitDigits r1 kd with
        | some (d, '/' :: r2) =>
          [4, 3, 2, 1].findSome? fun ky =>
            match splitDigits r2 ky with
            | some (y, []) => some (m, d, y)
            | _ => none
        | _ => none
    | _ => none

def isLeap (y : Nat) : Bool :=
  y % 4 == 0 && (!(y % 100 == 0) || y % 400 == 0)

def daysInMonth (m y : Nat) : Nat :=
  if m = 2 then (if isLeap y then 29 else 28)
  else if m = 4 ∨ m = 6 ∨ m = 9 ∨ m = 11 then 30 else 31

/-- Calendar validity plus the `datetime64[ns]` range check performed by
`pd.to_datetime` (dates outside 1677-09-21T00:12 .. 2262-04-11T23:47 coerce
to `NaT` under `errors='coerce'`). -/
def dateOk (m d y : Nat) : Bool :=
  decide (1 ≤ m) && decide (m ≤ 12) && decide (1 ≤ d) && decide (d ≤ daysInMonth m y) &&
  decide (16770921 < y * 10000 + m * 100 + d) && decide (y * 10000 + m * 100 + d ≤ 22620411)

/-- Model of `pd.to_datetime(s, format='%m/%d/%Y', errors='coerce')`:
`none` is `NaT`, `some (y, m, d)` the parsed calendar date. -/
def parseDate (s : String) : Option (Nat × Nat × Nat) :=
  match dateGroups s.data with
  | some (m, d, y) => if dateOk m d y then some (y, m, d) else none
  | none => none

/-- Sort code of a parsed date: chronological for valid dates, with `NaT`
coded above every valid date (pandas sorts `NaT` last). -/
def dcode : Option (Nat × Nat × Nat) → Nat
  | none => 100000000
  | some (y, m, d) => y * 10000 + m * 100 + d

/-- A record after the aggregator's in-place date parse, still carrying its
page for the secondary sort key. -/
structure PRec where
  dateVal : Option (Nat × Nat × Nat)
  name : String
  address : String
  city : String
  state : String
  zip : String
  occupation : String
  employer : String
  amount : String
  page : Nat
  deriving DecidableEq, Repr

/-- A record at the output boundary: `Page` dropped. -/
structure ORec where
  dateVal : Option (Nat × Nat × Nat)
  name : String
  address : String
  city : String
  state : String
  zip : String
  occupation : String
  employer : String
  amount : String
  deriving DecidableEq, Repr

/-- The aggregator's first step, `df['Date'] = pd.to_datetime(df['Date'], ...)`:
parse the date in place. -/
def toPRec (r : Contribution) : PRec :=
  { dateVal := parseDate r.date, name := r.name, address := r.address,
    city := r.city, state := r.state, zip := r.zip,
    occupation := r.occupation, employer := r.employer,
    amount := r.amount, page := r.page }

/-- The aggregator's last step, `df.drop('Page', axis=1)`. -/
def dropPage (p : PRec) : ORec :=
  { dateVal := p.dateVal, name := p.name, address := p.address,
    city := p.city, state := p.state, zip := p.zip,
    occupation := p.occupation, employer := p.employer, amount := p.amount }

/-- The sort key order of `df.sort_values(['Date', 'Page'])`: date first
(NaT last, via the code), page second. -/
def aggLeB (a b : PRec) : Bool :=
  decide (dcode a.dateVal < dcode b.dateVal) ||
  (decide (dcode a.dateVal = dcode b.dateVal) && decide (a.page ≤ b.page))

def aggRel (a b : PRec) : Prop := aggLeB a b = true

instance : DecidableRel aggRel := fun _ _ => inferInstanceAs (Decidable (_ = true))

instance : IsTotal PRec aggRel := by
  constructor; intro a b; simp only [aggRel, aggLeB, Bool.or_eq_true, Bool.and_eq_true,
    decide_eq_true_eq]; omega

instance : IsTrans PRec aggRel := by
  constructor; intro a b c; simp only [aggRel, aggLeB, Bool.or_eq_true, Bool.and_eq_true,
    decide_eq_true_eq]; omega

/-- The aggregator's sort: `sort_values(['Date', 'Page'])` is a stable
lexicographic sort, modelled by a stable insertion sort. -/
def aggregateSorted (l : List Contribution) : List PRec :=
  List.insertionSort aggRel (l.map toPRec)

/-- The full aggregator of `main` (`src/app.py` lines 324-326): parse dates,
sort by date then page, drop the page column. -/
def aggregate (l : List Contribution) : List ORec :=
  (aggregateSorted l).map dropPage

/-! ## Specification-side definitions -/

/-- Specification-side description of the Deduplicator (spec §4.6): keep the
first record of each identity key, dropping every later record that shares
its key, in order. -/
def keepFirstOccurrences : List Contribution → List Contribution
  | [] => []
  | r :: t => r :: keepFirstOccurrences (t.filter fun x => decide (dkey x ≠ dkey r))
termination_by l => l.length
decreasing_by
  simp only [List.length_cons]
  exact Nat.lt_succ_of_le (List.length_filter_le _ t)

/-- Shape of the language of `[\d,]+\.\d{2}`: a non-empty block of digits and
commas, one decimal point, exactly two digits after it. -/
def AmtBody (g3 : List Char) : Prop :=
  ∃ ds a b, g3 = ds ++ ['.', a, b] ∧ ds ≠ [] ∧ (∀ c ∈ ds, amtChar c = true) ∧
    a.isDigit = true ∧ b.isDigit = true

/-- Shape of a normalized amount field: a leading `$` followed by an
`[\d,]+\.\d{2}` body (so exactly two digits follow its decimal point). -/
def AmountShape (cs : List Char) : Prop :=
  ∃ ds a b, cs = '$' :: (ds ++ ['.', a, b]) ∧ ds ≠ [] ∧ (∀ c ∈ ds, amtChar c = true) ∧
    a.isDigit = true ∧ b.isDigit = true

/-- A character list with no leading and no trailing whitespace. -/
def TrimmedL (cs : List Char) : Prop :=
  (∀ c, cs.head? = some c → isSpaceC c = false) ∧
  (∀ c, cs.getLast? = some c → isSpaceC c = false)

/-! ## Helper lemmas -/

theorem find?_range'_some {p : Nat → Bool} :
    ∀ (n s j : Nat), (List.range' s n).find? p = some j →
      s ≤ j ∧ j < s + n ∧ p j = true ∧ ∀ k, s ≤ k → k < j → p k = false := by
  intro n
  induction n with
  | zero => intro s j h; simp [List.range'] at h
  | succ n ih =>
    intro s j h
    rw [List.range'_succ, List.find?_cons] at h
    cases hp : p s with
    | true =>
      rw [hp] at h
      simp only [Option.some.injEq] at h
      subst h
      exact ⟨Nat.le_refl _, by omega, hp, fun k hk1 hk2 => by omega⟩
    | false =>
      rw [hp] at h
      obtain ⟨h1, h2, h3, h4⟩ := ih (s + 1) j h
      refine ⟨by omega, by omega, h3, fun k hk1 hk2 => ?_⟩
      rcases Nat.eq_or_lt_of_le hk1 with rfl | hlt
      · exact hp
      · exact h4 k hlt hk2

theorem find?_range'_none {p : Nat → Bool} {n s : Nat}
    (h : (List.range' s n).find? p = none) :
    ∀ k, s ≤ k → k < s + n → p k = false := by
  intro k hk1 hk2
  have := List.find?_eq_none.mp h k (List.mem_range'_1.mpr ⟨hk1, hk2⟩)
  simpa using this

theorem one_le_skipAmount (lines : List String) (i : Nat) : 1 ≤ skipAmount lines i := by
  rcases h : skipWindowFind lines i with _ | j
  · simp [skipAmount, h]
  · have h' := h
    unfold skipWindowFind at h'
    obtain ⟨h1, _, _, _⟩ := find?_range'_some _ _ _ h'
    simp only [skipAmount, h]
    omega

theorem lt_nextCursor (lines : List String) (i : Nat) : i < nextCursor lines i := by
  unfold nextCursor
  split
  · have := one_le_skipAmount lines i; omega
  · omega

theorem dedupAux_eq (l : List Contribution) :
    ∀ seen, dedupAux seen l = keepFirstOccurrences (l.filter fun x => decide (dkey x ∉ seen)) := by
  induction l with
  | nil => intro seen; simp [dedupAux, keepFirstOccurrences]
  | cons r t ih =>
    intro seen
    by_cases h : dkey r ∈ seen
    · have hp : (decide (dkey r ∉ seen)) = false := by simp [h]
      rw [List.filter_cons]
      simp only [hp, Bool.false_eq_true, if_false]
      simpa [dedupAux, h] using ih seen
    · have hp : (decide (dkey r ∉ seen)) = true := by simp [h]
      rw [List.filter_cons]
      simp only [hp, if_true]
      rw [keepFirstOccurrences, List.filter_filter]
      have hpred : (t.filter fun x => decide (dkey x ≠ dkey r) && decide (dkey x ∉ seen)) =
          t.filter fun x => decide (dkey x ∉ dkey r :: seen) := by
        apply List.filter_congr
        intro x _
        simp [List.mem_cons, not_or, Bool.decide_and]
      rw [hpred]
      simp only [dedupAux, h, if_false]
      rw [ih (dkey r :: seen)]

theorem dedup_eq_keepFirst (l : List Contribution) : dedup l = keepFirstOccurrences l := by
  unfold dedup
  rw [dedupAux_eq]
  congr 1
  exact List.filter_eq_self.mpr fun a _ => by simp

theorem mem_of_mem_keepFirst :
    ∀ (n : Nat) (l : List Contribution), l.length ≤ n →
      ∀ x ∈ keepFirstOccurrences l, x ∈ l := by
  intro n
  induction n with
  | zero =>
    intro l hl x hx
    rw [List.length_eq_zero.mp (Nat.le_zero.mp hl)] at hx ⊢
    simp [keepFirstOccurrences] at hx
  | succ n ih =>
    intro l hl x hx
    cases l with
    | nil => simp [keepFirstOccurrences] at hx
    | cons r t =>
      rw [keepFirstOccurrences] at hx
      rcases List.mem_cons.mp hx with rfl | hx'
      · exact List.mem_cons_self _ _
      · have hlen : (t.filter fun x => decide (dkey x ≠ dkey r)).length ≤ n := by
          have := List.length_filter_le (fun x => decide (dkey x ≠ dkey r)) t
          simp only [List.length_cons] at hl
          omega
        exact List.mem_cons_of_mem _ (List.mem_of_mem_filter (ih _ hlen x hx'))

theorem keepFirst_idem :
    ∀ (n : Nat) (l : List Contribution), l.length ≤ n →
      keepFirstOccurrences (keepFirstOccurrences l) = keepFirstOccurrences l := by
  intro n
  induction n with
  | zero =>
    intro l hl
    rw [List.length_eq_zero.mp (Nat.le_zero.mp hl)]
    simp [keepFirstOccurrences]
  | succ n ih =>
    intro l hl
    cases l with
    | nil => simp [keepFirstOccurrences]
    | cons r t =>
      have hlen : (t.filter fun x => decide (dkey x ≠ dkey r)).length ≤ n := by
        have := List.length_filter_le (fun x => decide (dkey x ≠ dkey r)) t
        simp only [List.length_cons] at hl
        omega
      rw [keepFirstOccurrences, keepFirstOccurrences]
      have hself : ((keepFirstOccurrences (t.filter fun x => decide (dkey x ≠ dkey r))).filter
          fun x => decide (dkey x ≠ dkey r)) =
          keepFirstOccurrences (t.filter fun x => decide (dkey x ≠ dkey r)) := by
        apply List.filter_eq_self.mpr
        intro a ha
        exact (List.mem_filter.mp (mem_of_mem_keepFirst n _ hlen a ha)).2
      rw [hself, ih _ hlen]

/-! ## Claim theorems -/

/-- C2 (amended): after appending a record for a matched anchor, the scanner
advances the cursor to the first line matching the resync pattern in the
forward window `range(i+1, min(i+10, len(lines)))`; when no such line exists
the cursor advances by the fallback constant 5 (not 1). -/
theorem cursor_resync_advance (lines : List String) (i : Nat) :
    (∃ j, i + 1 ≤ j ∧ j < min (i + 10) lines.length ∧
        nextAnchorLike (lines.getD j "").data = true ∧
        (∀ k, i + 1 ≤ k → k < j → nextAnchorLike (lines.getD k "").data = false) ∧
        skipAmount lines i = j - i) ∨
    ((∀ j, i + 1 ≤ j → j < min (i + 10) lines.length →
        nextAnchorLike (lines.getD j "").data = false) ∧
     skipAmount lines i = 5) := by
  rcases h : skipWindowFind lines i with _ | j
  · right
    have h' := h
    unfold skipWindowFind at h'
    refine ⟨fun j hj1 hj2 => ?_, by simp [skipAmount, h]⟩
    exact find?_range'_none h' j hj1 (by omega)
  · left
    have h' := h
    unfold skipWindowFind at h'
    obtain ⟨h1, h2, h3, h4⟩ := find?_range'_some _ _ _ h'
    exact ⟨j, h1, by omega, h3, fun k hk1 hk2 => h4 k hk1 hk2, by simp [skipAmount, h]⟩

/-- Witness for C2: on a page where the line after the anchor is itself an
anchor, the advance is the distance 1 to it; the theorem instantiates. -/
theorem cursor_resync_advance_witness :
    (∃ j, 0 + 1 ≤ j ∧ j < min (0 + 10) (["01/15/2023 A $1.00", "01/16/2023 B $2.00"] : List String).length ∧
        nextAnchorLike ((["01/15/2023 A $1.00", "01/16/2023 B $2.00"] : List String).getD j "").data = true ∧
        (∀ k, 0 + 1 ≤ k → k < j →
          nextAnchorLike ((["01/15/2023 A $1.00", "01/16/2023 B $2.00"] : List String).getD k "").data = false) ∧
        skipAmount ["01/15/2023 A $1.00", "01/16/2023 B $2.00"] 0 = j - 0) ∨
    ((∀ j, 0 + 1 ≤ j → j < min (0 + 10) (["01/15/2023 A $1.00", "01/16/2023 B $2.00"] : List String).length →
        nextAnchorLike ((["01/15/2023 A $1.00", "01/16/2023 B $2.00"] : List String).getD j "").data = false) ∧
     skipAmount ["01/15/2023 A $1.00", "01/16/2023 B $2.00"] 0 = 5) :=
  cursor_resync_advance ["01/15/2023 A $1.00", "01/16/2023 B $2.00"] 0

/-- Counterexample for C2 as stated: a page whose single line is an anchor
has no next anchor in the window, and the cursor advances by 5, not by the
claimed fallback of 1. -/
theorem fallback_skip_is_five :
    skipAmount ["01/15/2023 Jane Doe $500.00"] 0 = 5 ∧ (5 : Nat) ≠ 1 := by
  exact ⟨by decide, by decide⟩

/-- C6: the Deduplicator keeps exactly the first occurrence of each
`(date, contributorName, amount)` key, compared exactly as stored, drops every
later record sharing that key (whatever its other fields), and preserves the
relative order of the kept records: it equals the specification-side
`keepFirstOccurrences`. -/
theorem dedup_keeps_first_occurrences (l : List Contribution) :
    dedup l = keepFirstOccurrences l := dedup_eq_keepFirst l

/-- C8: the Deduplicator is idempotent. -/
theorem dedup_idempotent (l : List Contribution) : dedup (dedup l) = dedup l := by
  rw [dedup_eq_keepFirst l, dedup_eq_keepFirst (keepFirstOccurrences l)]
  exact keepFirst_idem l.length l (Nat.le_refl _)

/-- C10: the anchor-scanning loop terminates on every finite line list: the
cursor strictly increases at every iteration (a non-match advances by 1, a
match by a skip that is at least 1), so any fuel of at least
`lines.length - i` reproduces the loop exactly and the result is
fuel-independent. -/
theorem scanner_terminates :
    (∀ (lines : List String) (i : Nat), i < nextCursor lines i) ∧
    (∀ (lines : List String) (page i f1 f2 : Nat),
      lines.length - i ≤ f1 → lines.length - i ≤ f2 →
      processFromF f1 lines page i = processFromF f2 lines page i) := by
  constructor
  · exact lt_nextCursor
  · intro lines page i f1 f2 h1 h2
    induction f1 generalizing i f2 with
    | zero =>
      have hi : ¬ i < lines.length := by omega
      cases f2 with
      | zero => rfl
      | succ g => simp [processFromF, hi]
    | succ f ih =>
      cases f2 with
      | zero =>
        have hi : ¬ i < lines.length := by omega
        simp [processFromF, hi]
      | succ g =>
        simp only [processFromF]
        by_cases hi : i < lines.length
        · simp only [hi, if_true]
          congr 1
          have hgt := lt_nextCursor lines i
          exact ih (nextCursor lines i) g (by omega) (by omega)
        · simp [hi]

/-- Witness for C10 at concrete inputs. -/
theorem scanner_terminates_witness :
    0 < nextCursor [] 0 ∧ processFromF 3 ["a"] 1 0 = processFromF 5 ["a"] 1 0 :=
  ⟨scanner_terminates.1 [] 0, scanner_terminates.2 ["a"] 1 0 3 5 (by decide) (by decide)⟩

/-! ## The amount field (claim C1) -/

theorem matchAmount_shape {cs g3 : List Char} (h : matchAmount cs = some g3) : AmtBody g3 := by
  unfold matchAmount at h
  split at h
  · split at h
    · rename_i a b rest heq hcond
      simp only [Bool.and_eq_true, Bool.not_eq_true'] at hcond
      obtain ⟨⟨hne, ha⟩, hb⟩ := hcond
      injection h with h'
      refine ⟨cs.takeWhile amtChar, a, b, h'.symm, ?_, ?_, ha, hb⟩
      · intro hnil
        rw [hnil] at hne
        simp at hne
      · intro c hc
        exact List.mem_takeWhile_imp hc
    · exact Option.noConfusion h
  · exact Option.noConfusion h

theorem tryAfterName_shape {cs g3 : List Char} (h : tryAfterName cs = some g3) : AmtBody g3 := by
  unfold tryAfterName at h
  split at h
  · exact Option.noConfusion h
  · split at h
    · exact matchAmount_shape h
    · exact Option.noConfusion h

theorem lazyName_shape : ∀ (cs acc g2 g3 : List Char),
    lazyName acc cs = some (g2, g3) → AmtBody g3 := by
  intro cs
  induction cs with
  | nil =>
    intro acc g2 g3 h
    rw [lazyName] at h
    exact Option.noConfusion h
  | cons c t ih =>
    intro acc g2 g3 h
    rw [lazyName] at h
    by_cases hc : c = '\n'
    · rw [if_pos hc] at h
      exact Option.noConfusion h
    · rw [if_neg hc] at h
      cases ht : tryAfterName t with
      | some g3' =>
        simp only [ht] at h
        injection h with h'
        injection h' with h1 h2
        subst h2
        exact tryAfterName_shape ht
      | none =>
        simp only [ht] at h
        exact ih _ _ _ h

theorem exists_of_findSome {α β : Type} (f : α → Option β) :
    ∀ (l : List α) (b : β), l.findSome? f = some b → ∃ a, f a = some b := by
  intro l
  induction l with
  | nil =>
    intro b h
    rw [List.findSome?_nil] at h
    exact Option.noConfusion h
  | cons a t ih =>
    intro b h
    rw [List.findSome?_cons] at h
    cases hf : f a with
    | some v =>
      simp only [hf] at h
      exact ⟨a, hf.trans (congrArg some (by injection h))⟩
    | none =>
      simp only [hf] at h
      exact ih b h

theorem matchTail_shape {cs g2 g3 : List Char} (h : matchTail cs = some (g2, g3)) :
    AmtBody g3 := by
  unfold matchTail at h
  obtain ⟨k, hk⟩ := exists_of_findSome _ _ _ h
  exact lazyName_shape _ _ _ _ hk

theorem matchAnchorAt_shape {cs g1 g2 g3 : List Char}
    (h : matchAnchorAt cs = some (g1, g2, g3)) : AmtBody g3 := by
  unfold matchAnchorAt at h
  split at h
  · exact Option.noConfusion h
  · split at h
    · exact Option.noConfusion h
    · rename_i g2' g3' heq2
      injection h with h'
      injection h' with ha hb
      injection hb with hb1 hb2
      subst hb2
      exact matchTail_shape heq2

theorem searchAnchor_shape : ∀ (cs g1 g2 g3 : List Char),
    searchAnchor cs = some (g1, g2, g3) → AmtBody g3 := by
  intro cs
  induction cs with
  | nil =>
    intro g1 g2 g3 h
    rw [show searchAnchor ([] : List Char) = none from rfl] at h
    exact Option.noConfusion h
  | cons c t ih =>
    intro g1 g2 g3 h
    rw [searchAnchor] at h
    cases hm : matchAnchorAt (c :: t) with
    | some g =>
      simp only [hm] at h
      injection h with h'
      subst h'
      exact matchAnchorAt_shape hm
    | none =>
      simp only [hm] at h
      exact ih _ _ _ h

/-- C1 (amended): for every line the Record Anchor Scanner matches as an
anchor, the constructed record's amount field begins with `$` and has exactly
two digits after its decimal point; however the currency symbol is required
(not optional) in the anchor pattern. -/
theorem amount_normalized_of_anchor (lines : List String) (i page : Nat)
    (g1 g2 g3 : List Char)
    (h : searchAnchor (lines.getD i "").data = some (g1, g2, g3)) :
    AmountShape (buildRecord lines i page g1 g2 g3).amount.data := by
  have hb : (buildRecord lines i page g1 g2 g3).amount.data = '$' :: g3 := rfl
  rw [hb]
  obtain ⟨ds, a, b, h1, h2, h3, h4, h5⟩ := searchAnchor_shape _ _ _ _ h
  exact ⟨ds, a, b, by rw [h1], h2, h3, h4, h5⟩

/-- Witness for C1 on the scenario-A anchor line. -/
theorem amount_normalized_witness :
    AmountShape (buildRecord ["01/15/2023 Jane Doe $500.00"] 0 1
      "01/15/2023".data "Jane Doe".data "500.00".data).amount.data :=
  amount_normalized_of_anchor ["01/15/2023 Jane Doe $500.00"] 0 1 _ _ _ (by decide)

/-- Counterexample for C1 as stated: the currency symbol is not optional in
the anchor pattern — the same line with the `$` removed does not match. -/
theorem anchor_requires_dollar :
    searchAnchor "01/15/2023 Jane Doe $500.00".data ≠ none ∧
    searchAnchor "01/15/2023 Jane Doe 500.00".data = none :=
  ⟨by decide, by decide⟩

/-- C7: a candidate line exactly equal to a configured footer phrase never
enters the candidate list (it is a skip-line), so it is never assigned as
occupation or employer; and when the candidate list is empty — in particular
when the footer phrase was the only line in the window — both fields take
the sentinel value. -/
theorem footer_never_occupation (lines : List String) (i : Nat) (addr p : String)
    (hp : p ∈ FOOTER_PATTERNS) :
    p ∉ potentialDataLines lines i addr ∧
    (potentialDataLines lines i addr = [] →
      occEmpOf lines i addr = ("No Data", "No Data")) := by
  constructor
  · intro hmem
    have hfil := (List.mem_filter.mp hmem).2
    simp only [Bool.and_eq_true, Bool.not_eq_true'] at hfil
    have hskipfalse : shouldSkipLine p = false := hfil.1.1.1
    have hskiptrue : shouldSkipLine p = true := by
      simp only [FOOTER_PATTERNS, List.mem_cons, List.not_mem_nil, or_false] at hp
      rcases hp with rfl | rfl | rfl | rfl | rfl <;> decide
    rw [hskiptrue] at hskipfalse
    exact Bool.noConfusion hskipfalse
  · intro hempty
    simp only [occEmpOf, hempty]
    decide

/-- Witness for C7: a page whose only window line is the site-URL footer
phrase. -/
theorem footer_never_occupation_witness :
    "www.ethics.state.tx.us" ∉
      potentialDataLines ["01/15/2023 Jane Doe $500.00", "www.ethics.state.tx.us"] 0 "No Data" ∧
    (potentialDataLines ["01/15/2023 Jane Doe $500.00", "www.ethics.state.tx.us"] 0 "No Data" = [] →
      occEmpOf ["01/15/2023 Jane Doe $500.00", "www.ethics.state.tx.us"] 0 "No Data" =
        ("No Data", "No Data")) :=
  footer_never_occupation ["01/15/2023 Jane Doe $500.00", "www.ethics.state.tx.us"] 0
    "No Data" "www.ethics.state.tx.us" (by decide)

/-- C9: when the document opens but no page contains the section marker,
extraction returns the explicit no-data result — a value, not an exception —
and that result's message differs from every processing-error message. -/
theorem no_marker_yields_no_data (pages : List String)
    (h : ∀ t ∈ pages, pageRelevant t = false) :
    extractFromPages pages = (none, some "No Schedule A1 data found in the PDF") ∧
    (∀ e, "No Schedule A1 data found in the PDF" ≠ processingError e) := by
  constructor
  · have hrel : ((List.range pages.length).filter fun n => pageRelevant (pages.getD n "")) = [] := by
      rw [List.filter_eq_nil_iff]
      intro n hn
      have hlt : n < pages.length := List.mem_range.mp hn
      simp only [Bool.not_eq_true]
      rw [List.getD_eq_getElem pages "" hlt]
      exact h _ (List.getElem_mem hlt)
    simp only [extractFromPages]
    rw [hrel]
    rfl
  · intro e heq
    unfold processingError at heq
    have hd := congrArg String.data heq
    rw [String.data_append] at hd
    rw [show "No Schedule A1 data found in the PDF".data =
          'N' :: "o Schedule A1 data found in the PDF".data from rfl,
        show "Error processing PDF: ".data = 'E' :: "rror processing PDF: ".data from rfl,
        List.cons_append] at hd
    injection hd with hc
    exact absurd hc (by decide)

/-- Witness for C9 on a one-page document without the marker phrase. -/
theorem no_marker_yields_no_data_witness :
    extractFromPages ["hello world"] = (none, some "No Schedule A1 data found in the PDF") ∧
    (∀ e, "No Schedule A1 data found in the PDF" ≠ processingError e) :=
  no_marker_yields_no_data ["hello world"] (by decide)

/-! ## The contributor name (claim C4) -/

theorem head?_dropWhile {α : Type} {p : α → Bool} :
    ∀ (l : List α) (c : α), (l.dropWhile p).head? = some c → p c = false := by
  intro l
  induction l with
  | nil => intro c h; simp [List.dropWhile] at h
  | cons a t ih =>
    intro c h
    rw [List.dropWhile_cons] at h
    split at h
    · exact ih c h
    · next hpa =>
        injection h with h'
        subst h'
        exact Bool.eq_false_iff.mpr hpa

theorem getLast?_dropWhile {α : Type} {p : α → Bool} :
    ∀ l : List α, l.dropWhile p ≠ [] → (l.dropWhile p).getLast? = l.getLast? := by
  intro l
  induction l with
  | nil => intro h; simp [List.dropWhile] at h
  | cons a t ih =>
    intro h
    by_cases hpa : p a = true
    · rw [List.dropWhile_cons, if_pos hpa] at h ⊢
      have ht : t ≠ [] := by
        intro hh
        rw [hh] at h
        simp [List.dropWhile] at h
      obtain ⟨b, t2, rfl⟩ := List.exists_cons_of_ne_nil ht
      rw [ih h, List.getLast?_cons_cons]
    · rw [List.dropWhile_cons, if_neg hpa]

theorem pyStrip_trimmed (cs : List Char) : TrimmedL (pyStrip cs) := by
  constructor
  · intro c hc
    unfold pyStrip at hc
    rw [List.head?_reverse] at hc
    have hne : List.dropWhile isSpaceC (List.dropWhile isSpaceC cs).reverse ≠ [] := by
      intro hh
      rw [hh] at hc
      exact Option.noConfusion hc
    rw [getLast?_dropWhile _ hne, List.getLast?_reverse] at hc
    exact head?_dropWhile _ _ hc
  · intro c hc
    unfold pyStrip at hc
    rw [List.getLast?_reverse] at hc
    exact head?_dropWhile _ _ hc

theorem scanClose_spec : ∀ (m b : List Char), (∀ c ∈ m, c ≠ ')' ∧ c ≠ '\n') →
    scanClose (m ++ ')' :: b) = some b := by
  intro m
  induction m with
  | nil => intro b _; simp [scanClose]
  | cons c t ih =>
    intro b h
    obtain ⟨h1, h2⟩ := h c (List.mem_cons_self _ _)
    rw [List.cons_append, scanClose, if_neg h1, if_neg h2]
    exact ih b fun x hx => h x (List.mem_cons_of_mem _ hx)

theorem scanClose_lt : ∀ (l r : List Char), scanClose l = some r → r.length < l.length := by
  intro l
  induction l with
  | nil => intro r h; exact Option.noConfusion h
  | cons c t ih =>
    intro r h
    rw [scanClose] at h
    by_cases h1 : c = ')'
    · rw [if_pos h1] at h
      injection h with h'
      subst h'
      simp
    · rw [if_neg h1] at h
      by_cases h2 : c = '\n'
      · rw [if_pos h2] at h
        exact Option.noConfusion h
      · rw [if_neg h2] at h
        have := ih r h
        simp only [List.length_cons]
        omega

theorem matchIdFrag_lt (cs rest : List Char) (h : matchIdFrag cs = some rest) :
    rest.length < cs.length := by
  unfold matchIdFrag at h
  split at h
  · have h1 := scanClose_lt _ _ h
    rw [List.length_drop] at h1
    omega
  · exact Option.noConfusion h

theorem matchIdFrag_none_of_ne {c : Char} (t : List Char) (hc : c ≠ '(') :
    matchIdFrag (c :: t) = none := by
  unfold matchIdFrag
  have hpre : ("(ID#:".toList.isPrefixOf (c :: t)) = false := by
    rw [show "(ID#:".toList = '(' :: "ID#:".toList from rfl]
    simp only [List.isPrefixOf, Bool.and_eq_false_iff]
    left
    exact beq_eq_false_iff_ne.mpr fun hh => hc hh.symm
  rw [hpre]
  rfl

theorem rifF_indep : ∀ (f g : Nat) (cs : List Char), cs.length ≤ f → cs.length ≤ g →
    removeIdFragsF f cs = removeIdFragsF g cs := by
  intro f
  induction f with
  | zero =>
    intro g cs h1 _
    rw [List.length_eq_zero.mp (Nat.le_zero.mp h1)]
    cases g <;> rfl
  | succ f ih =>
    intro g cs h1 h2
    cases cs with
    | nil => cases g <;> rfl
    | cons c t =>
      cases g with
      | zero => simp at h2
      | succ g' =>
        simp only [removeIdFragsF]
        cases hm : matchIdFrag (c :: t) with
        | some rest =>
          have hlt := matchIdFrag_lt _ _ hm
          simp only [List.length_cons] at h1 h2 hlt
          exact ih g' rest (by omega) (by omega)
        | none =>
          simp only [List.length_cons] at h1 h2
          exact congrArg (c :: ·) (ih g' t (by omega) (by omega))

theorem rifF_frag : ∀ (a : List Char) (f : Nat) (m b : List Char),
    (a ++ '(' :: 'I' :: 'D' :: '#' :: ':' :: (m ++ ')' :: b)).length ≤ f →
    (∀ c ∈ a, c ≠ '(') → (∀ c ∈ m, c ≠ ')' ∧ c ≠ '\n') →
    removeIdFragsF f (a ++ '(' :: 'I' :: 'D' :: '#' :: ':' :: (m ++ ')' :: b)) =
      a ++ removeIdFragsF b.length b := by
  intro a
  induction a with
  | nil =>
    intro f m b hf _ hm
    cases f with
    | zero => simp at hf
    | succ f' =>
      have hfrag : matchIdFrag ('(' :: 'I' :: 'D' :: '#' :: ':' :: (m ++ ')' :: b)) = some b := by
        unfold matchIdFrag
        rw [show "(ID#:".toList = ['(', 'I', 'D', '#', ':'] from rfl]
        rw [show (['(', 'I', 'D', '#', ':'].isPrefixOf
              ('(' :: 'I' :: 'D' :: '#' :: ':' :: (m ++ ')' :: b))) = true by
            simp [List.isPrefixOf]]
        show scanClose (m ++ ')' :: b) = some b
        exact scanClose_spec m b hm
      rw [List.nil_append] at hf ⊢
      simp only [removeIdFragsF, hfrag]
      simp only [List.length_cons, List.length_append] at hf
      exact rifF_indep f' b.length b (by omega) (Nat.le_refl _)
  | cons c a' ih =>
    intro f m b hf ha hm
    have hc : c ≠ '(' := ha c (List.mem_cons_self _ _)
    cases f with
    | zero => simp at hf
    | succ f' =>
      rw [List.cons_append]
      simp only [removeIdFragsF, matchIdFrag_none_of_ne _ hc]
      rw [List.cons_append] at hf
      simp only [List.length_cons] at hf
      exact congrArg (c :: ·)
        (ih f' m b (by omega) (fun x hx => ha x (List.mem_cons_of_mem _ hx)) hm)

theorem removeIdFrags_frag (a m b : List Char)
    (ha : ∀ c ∈ a, c ≠ '(') (hm : ∀ c ∈ m, c ≠ ')' ∧ c ≠ '\n') :
    removeIdFrags (a ++ '(' :: 'I' :: 'D' :: '#' :: ':' :: (m ++ ')' :: b)) =
      a ++ removeIdFrags b := by
  unfold removeIdFrags
  exact rifF_frag a _ m b (Nat.le_refl _) ha hm

/-- C4 (amended): every constructed record's contributorName is trimmed (no
leading or trailing whitespace) and has parenthetical identifier fragments
`(ID#: ...)` stripped by left-to-right non-overlapping removal; the source
applies no 100-character length cap. -/
theorem contributor_name_trimmed_stripped :
    (∀ g2 : List Char, TrimmedL (contributorNameOf g2)) ∧
    (∀ a m b : List Char, (∀ c ∈ a, c ≠ '(') → (∀ c ∈ m, c ≠ ')' ∧ c ≠ '\n') →
      removeIdFrags (a ++ '(' :: 'I' :: 'D' :: '#' :: ':' :: (m ++ ')' :: b)) =
        a ++ removeIdFrags b) :=
  ⟨fun _ => pyStrip_trimmed _, removeIdFrags_frag⟩

/-- Witness for C4 at a concrete raw name and a concrete fragment. -/
theorem contributor_name_trimmed_witness :
    TrimmedL (contributorNameOf "  Jane Doe  ".data) ∧
    removeIdFrags ("Jane ".data ++ '(' :: 'I' :: 'D' :: '#' :: ':' ::
        (" 123".data ++ ')' :: " PAC".data)) =
      "Jane ".data ++ removeIdFrags " PAC".data :=
  ⟨contributor_name_trimmed_stripped.1 _,
   contributor_name_trimmed_stripped.2 _ _ _ (by decide) (by decide)⟩

/-- Counterexample for C4 as stated: a 101-character contributor name passes
through the scanner without truncation, so the field is not capped at 100
characters. -/
theorem contributor_name_uncapped :
    ((processFromF 1 [⟨"01/15/2023 ".data ++ List.replicate 101 'A' ++ " $500.00".data⟩] 1 0).map
      fun r => r.name.length) = [101] ∧ ¬ (101 ≤ 100) :=
  ⟨by decide, by decide⟩

/-! ## Address parsing (claim C3) -/

theorem splitOnCommaAux_no_comma : ∀ (r acc : List Char), (∀ c ∈ r, c ≠ ',') →
    splitOnCommaAux r acc = [acc.reverse ++ r] := by
  intro r
  induction r with
  | nil => intro acc _; simp [splitOnCommaAux]
  | cons c t ih =>
    intro acc h
    have hc : c ≠ ',' := h c (List.mem_cons_self _ _)
    rw [splitOnCommaAux, if_neg hc, ih (c :: acc) fun x hx => h x (List.mem_cons_of_mem _ hx)]
    simp

theorem splitOnCommaAux_first : ∀ (cp : List Char) (acc r : List Char), (∀ c ∈ cp, c ≠ ',') →
    splitOnCommaAux (cp ++ ',' :: r) acc = (acc.reverse ++ cp) :: splitOnCommaAux r [] := by
  intro cp
  induction cp with
  | nil => intro acc r _; simp [splitOnCommaAux]
  | cons c t ih =>
    intro acc r h
    have hc : c ≠ ',' := h c (List.mem_cons_self _ _)
    rw [List.cons_append, splitOnCommaAux, if_neg hc,
      ih (c :: acc) r fun x hx => h x (List.mem_cons_of_mem _ hx)]
    simp

/-- C3 (amended): the synthetic address line splits into
city `Austin`, state `TX`, zip `78701`; in general the located address line
is split on commas, the first piece (trimmed) becomes city, and the second
piece — the text between the first and second comma — is whitespace-split:
when it has at least two tokens they become state and zip, otherwise state
and zip BOTH keep the sentinel (they are not defaulted individually). -/
theorem address_split_fields :
    splitAddress "Austin, TX 78701" = ("Austin", "TX", "78701") ∧
    (∀ cp r : List Char, (∀ c ∈ cp, c ≠ ',') → (∀ c ∈ r, c ≠ ',') →
      splitAddress ⟨cp ++ ',' :: r⟩ =
        match pyWords (pyStrip r) with
        | s :: z :: _ => ((⟨pyStrip cp⟩ : String), (⟨s⟩ : String), (⟨z⟩ : String))
        | _ => ((⟨pyStrip cp⟩ : String), "No Data", "No Data")) := by
  constructor
  · decide
  · intro cp r hcp hr
    show (match splitOnComma (cp ++ ',' :: r) with
          | c0 :: c1 :: _ =>
            match pyWords (pyStrip c1) with
            | s :: z :: _ => ((⟨pyStrip c0⟩ : String), (⟨s⟩ : String), (⟨z⟩ : String))
            | _ => ((⟨pyStrip c0⟩ : String), "No Data", "No Data")
          | _ => (("No Data" : String), ("No Data" : String), ("No Data" : String))) = _
    rw [show splitOnComma (cp ++ ',' :: r) = splitOnCommaAux (cp ++ ',' :: r) [] from rfl,
      splitOnCommaAux_first cp [] r hcp, splitOnCommaAux_no_comma r [] hr]
    simp only [List.reverse_nil, List.nil_append]

/-- Witness for C3 at the synthetic address pieces. -/
theorem address_split_fields_witness :
    splitAddress ⟨"Austin".data ++ ',' :: " TX 78701".data⟩ =
      match pyWords (pyStrip " TX 78701".data) with
      | s :: z :: _ => ((⟨pyStrip "Austin".data⟩ : String), (⟨s⟩ : String), (⟨z⟩ : String))
      | _ => ((⟨pyStrip "Austin".data⟩ : String), "No Data", "No Data") :=
  address_split_fields.2 "Austin".data " TX 78701".data (by decide) (by decide)

/-- Counterexample for C3 as stated: when the remainder holds a single
whitespace token, the token is NOT assigned as state — both state and zip
keep the sentinel; and the remainder is only the text up to the second comma,
so a trailing `, USA` piece is ignored rather than merged into the zip. -/
theorem address_split_onetoken :
    splitAddress "AB 1, X" = ("AB 1", "No Data", "No Data") ∧ ("No Data" : String) ≠ "X" ∧
    splitAddress "Austin, TX 78701, USA" = ("Austin", "TX", "78701") ∧
    ("78701" : String) ≠ "78701," :=
  ⟨by decide, by decide, by decide, by decide⟩

/-! ## The aggregator (claim C5) -/

theorem parseDate_code_lt (s : String) (v : Nat × Nat × Nat) (h : parseDate s = some v) :
    dcode (some v) < 100000000 := by
  unfold parseDate at h
  split at h
  · split at h
    · rename_i m d y heq hok
      injection h with h'
      subst h'
      unfold dateOk at hok
      simp only [Bool.and_eq_true, decide_eq_true_eq] at hok
      obtain ⟨⟨⟨⟨⟨_, _⟩, _⟩, _⟩, _⟩, h6⟩ := hok
      simp only [dcode]
      omega
    · exact Option.noConfusion h
  · exact Option.noConfusion h

/-- C5 (amended): the Record Aggregator reorders the deduplicated list
(sorted by parsed date ascending with page as secondary key, unparseable
dates after all valid dates), strips the page, and replaces the stored date
string by its parsed value; every other field of every record reaches the
output boundary unchanged — the output is a permutation of the per-record
transform that touches only the date and page fields. -/
theorem aggregator_frame (l : List Contribution) :
    (aggregate l).Perm (l.map fun r => dropPage (toPRec r)) ∧
    (aggregateSorted l).Pairwise aggRel ∧
    (aggregateSorted l).Pairwise (fun a b => a.dateVal = none → b.dateVal = none) := by
  have hmem : ∀ x ∈ aggregateSorted l, ∀ v, x.dateVal = some v → dcode (some v) < 100000000 := by
    intro x hx v hv
    have hx' : x ∈ l.map toPRec :=
      ((List.perm_insertionSort aggRel (l.map toPRec)).mem_iff).mp hx
    obtain ⟨r, _, rfl⟩ := List.mem_map.mp hx'
    exact parseDate_code_lt r.date v hv
  refine ⟨?_, ?_, ?_⟩
  · have hperm := (List.perm_insertionSort aggRel (l.map toPRec)).map dropPage
    rw [List.map_map] at hperm
    exact hperm
  · exact List.sorted_insertionSort aggRel (l.map toPRec)
  · refine List.Pairwise.imp_of_mem ?_ (List.sorted_insertionSort aggRel (l.map toPRec))
    intro a b ha hb hr hnone
    cases hbv : b.dateVal with
    | none => rfl
    | some v =>
      exfalso
      have hlt := hmem b hb v hbv
      unfold aggRel aggLeB at hr
      simp only [Bool.or_eq_true, Bool.and_eq_true, decide_eq_true_eq] at hr
      rw [hnone, hbv] at hr
      simp only [dcode] at hr hlt
      omega

/-- Counterexample for C5 as stated: two distinct records that differ only in
the spelling of the stored date string become identical at the output
boundary, so the date field's value does not reach the output unchanged (it
is replaced by its parsed form). -/
theorem aggregator_alters_date :
    ((⟨"1/15/2023", "Jane Doe", "No Data", "No Data", "No Data", "No Data",
        "No Data", "No Data", "$500.00", 1⟩ : Contribution) ≠
      ⟨"01/15/2023", "Jane Doe", "No Data", "No Data", "No Data", "No Data",
        "No Data", "No Data", "$500.00", 1⟩) ∧
    aggregate
      [⟨"1/15/2023", "Jane Doe", "No Data", "No Data", "No Data", "No Data",
          "No Data", "No Data", "$500.00", 1⟩,
       ⟨"01/15/2023", "Jane Doe", "No Data", "No Data", "No Data", "No Data",
          "No Data", "No Data", "$500.00", 1⟩] =
      [⟨some (2023, 1, 15), "Jane Doe", "No Data", "No Data", "No Data", "No Data",
          "No Data", "No Data", "$500.00"⟩,
       ⟨some (2023, 1, 15), "Jane Doe", "No Data", "No Data", "No Data", "No Data",
          "No Data", "No Data", "$500.00"⟩] :=
  ⟨by decide, by decide⟩

/-- Witness for C5: the aggregator theorem instantiated at a concrete
two-record list. -/
theorem aggregator_frame_witness :
    (aggregate [⟨"01/15/2023", "Jane Doe", "No Data", "No Data", "No Data", "No Data",
        "No Data", "No Data", "$500.00", 1⟩]).Perm
      ([⟨"01/15/2023", "Jane Doe", "No Data", "No Data", "No Data", "No Data",
          "No Data", "No Data", "$500.00", 1⟩].map fun r => dropPage (toPRec r)) ∧
    (aggregateSorted [⟨"01/15/2023", "Jane Doe", "No Data", "No Data", "No Data", "No Data",
        "No Data", "No Data", "$500.00", 1⟩]).Pairwise aggRel ∧
    (aggregateSorted [⟨"01/15/2023", "Jane Doe", "No Data", "No Data", "No Data", "No Data",
        "No Data", "No Data", "$500.00", 1⟩]).Pairwise
      (fun a b => a.dateVal = none → b.dateVal = none) :=
  aggregator_frame [⟨"01/15/2023", "Jane Doe", "No Data", "No Data", "No Data", "No Data",
    "No Data", "No Data", "$500.00", 1⟩]

end App
